import Mathlib

/-!
Verification of the order-entry record collection and query engine
(`order_entry.py`): the `OrderEntry` record model, dictionary-based
construction, and the `OrderCollection` query operations (date-range
filtering, cancellation partition, keyword search, cost aggregation,
bulk loading).

Modelling conventions:
* JSON scalar values (the only value shapes the input files carry per the
  interface description) are `JValue`: string, number, or null.
* Monetary amounts (`float` in the source) are modelled as exact rationals
  `ℚ`.  The arithmetic facts proved below (empty sums, a one-element sum,
  and the `None` dispatch of `total_costs`) hold identically in IEEE-754
  double arithmetic; properties that rest on exact associativity of float
  addition, such as unconditional additivity of `sum`, are deliberately
  not asserted, since float addition does not satisfy them.
* Python exceptions are modelled with `Except PyError`; `ValueError`
  (raised both by `float(...)` on a bad string and by
  `datetime.strptime` on a bad date) and `TypeError` (raised by
  `float(None)`) are the kinds that can occur in the modelled fragment.
* `datetime.strptime(s, "%m/%d/%Y")` is modelled by `parseDate`:
  month and day are 1-2 ASCII digits (month 1-12, day valid for the
  month/year including leap years), the year is exactly 4 ASCII digits
  and at least 1, and the separators are literal slashes with nothing
  left over.  Non-ASCII digits are outside the modelled fragment.
* `float(s)` on strings is modelled by `pyParseFloat`: optional
  whitespace, sign, decimal mantissa and exponent.  Infinities, NaN and
  digit-group underscores are outside the modelled fragment.
* `str.lower` is modelled by `pyLower` (ASCII case folding).
-/

/-- A JSON scalar value as produced by the external spreadsheet-to-JSON
converter: string, number, or null. -/
inductive JValue where
  | str (s : String)
  | num (q : ℚ)
  | null
deriving DecidableEq, Repr

/-- Kind of Python exception arising in the modelled fragment. -/
inductive PyError where
  | valueError
  | typeError
deriving DecidableEq, Repr

deriving instance DecidableEq for Except

/-- A decoded JSON object: an association list from string keys to values
(a Python dict; lookup takes the first binding). -/
abbrev Row := List (String × JValue)

/-- A calendar date as produced by `datetime.strptime`; the time-of-day
components are always zero for `"%m/%d/%Y"` and are omitted. -/
structure Date where
  year : Nat
  month : Nat
  day : Nat
deriving DecidableEq, Repr

/-- Comparison of two parsed dates, as `datetime` order: lexicographic on
(year, month, day). -/
def Date.ble (a b : Date) : Bool :=
  Nat.blt a.year b.year ||
    (a.year == b.year &&
      (Nat.blt a.month b.month ||
        (a.month == b.month && Nat.ble a.day b.day)))

/-- Gregorian leap-year rule used by `datetime` for day-of-month
validation. -/
def isLeap (y : Nat) : Bool :=
  y % 4 == 0 && (y % 100 != 0 || y % 400 == 0)

/-- Number of days in a month, as validated by the `datetime`
constructor. -/
def daysInMonth (y m : Nat) : Nat :=
  if m == 2 then (if isLeap y then 29 else 28)
  else if m == 4 || m == 6 || m == 9 || m == 11 then 30
  else 31

/-- Value of a list of ASCII digit characters read in base 10. -/
def digitsToNat (ds : List Char) : Nat :=
  ds.foldl (fun a c => 10 * a + (c.toNat - 48)) 0

/-- Split a character list at every literal slash (the separator of the
`"%m/%d/%Y"` pattern). -/
def splitSlash : List Char → List (List Char)
  | [] => [[]]
  | '/' :: r => [] :: splitSlash r
  | c :: r =>
    match splitSlash r with
    | h :: t => (c :: h) :: t
    | [] => [[c]]

/-- Model of `datetime.strptime(s, "%m/%d/%Y")`: `some` of the parsed
date on success, `none` when the source would raise `ValueError`. -/
def parseDate (s : String) : Option Date :=
  match splitSlash s.data with
  | [ms, ds, ys] =>
    if (decide (1 ≤ ms.length) && decide (ms.length ≤ 2) && ms.all Char.isDigit &&
        decide (1 ≤ ds.length) && decide (ds.length ≤ 2) && ds.all Char.isDigit &&
        (ys.length == 4) && ys.all Char.isDigit) then
      let m := digitsToNat ms
      let d := digitsToNat ds
      let y := digitsToNat ys
      if (decide (1 ≤ m) && decide (m ≤ 12) && decide (1 ≤ d) &&
          decide (d ≤ daysInMonth y m) && decide (1 ≤ y)) then
        some ⟨y, m, d⟩
      else none
    else none
  | _ => none

/-- Whitespace stripped by Python's `float(str)` conversion (ASCII
fragment). -/
def isPyWS (c : Char) : Bool :=
  c == ' ' || ('\t' ≤ c && c ≤ '\r')

/-- Strip leading and trailing whitespace from a character list. -/
def stripWS (l : List Char) : List Char :=
  ((l.dropWhile isPyWS).reverse.dropWhile isPyWS).reverse

/-- Consume an optional leading sign; returns whether it was a minus and
the remaining characters. -/
def parseSign : List Char → Bool × List Char
  | '+' :: r => (false, r)
  | '-' :: r => (true, r)
  | l => (false, l)

/-- Consume a decimal mantissa: digits, optionally with a decimal point,
with at least one digit overall.  Returns the digits' value together
with the number of fractional digits (the mantissa denotes
`value / 10 ^ scale`). -/
def parseMantissa (l : List Char) : Option ((Nat × Nat) × List Char) :=
  let ip := l.takeWhile Char.isDigit
  let r1 := l.dropWhile Char.isDigit
  match r1 with
  | '.' :: r2 =>
    let fp := r2.takeWhile Char.isDigit
    let r3 := r2.dropWhile Char.isDigit
    if ip.isEmpty && fp.isEmpty then none
    else some ((digitsToNat (ip ++ fp), fp.length), r3)
  | _ => if ip.isEmpty then none else some ((digitsToNat ip, 0), r1)

/-- Consume the digits of an exponent after the `e` marker (an optional
sign then at least one digit). -/
def parseExpDigits (l : List Char) : Option (Int × List Char) :=
  let sr := parseSign l
  let ds := sr.2.takeWhile Char.isDigit
  let rest := sr.2.dropWhile Char.isDigit
  if ds.isEmpty then none
  else
    some ((if sr.1 then -(Int.ofNat (digitsToNat ds)) else Int.ofNat (digitsToNat ds)), rest)

/-- Consume an optional exponent part `e`/`E` followed by signed
digits. -/
def parseExponent (l : List Char) : Option (Int × List Char) :=
  match l with
  | 'e' :: r => parseExpDigits r
  | 'E' :: r => parseExpDigits r
  | _ => some (0, l)

/-- Model of Python's `float(s)` string conversion on the decimal
fragment: `some` of the exact value on success, `none` when the source
would raise `ValueError`. -/
def pyParseFloat (s : String) : Option ℚ :=
  let l := stripWS s.data
  let sr := parseSign l
  match parseMantissa sr.2 with
  | none => none
  | some ((n, scale), r1) =>
    match parseExponent r1 with
    | none => none
    | some (e, r2) =>
      if r2.isEmpty then
        let k : Int := e - Int.ofNat scale
        let snum : Int := if sr.1 then -(Int.ofNat n) else Int.ofNat n
        if 0 ≤ k then some (mkRat (snum * Int.ofNat (10 ^ k.toNat)) 1)
        else some (mkRat snum (10 ^ (-k).toNat))
      else none

/-- Model of Python's `float(v)` applied to a JSON scalar: numbers pass
through, strings are parsed (`ValueError` on failure, including the
empty string), and `None` raises `TypeError`. -/
def pyFloat : JValue → Except PyError ℚ
  | .num q => .ok q
  | .str s =>
    match pyParseFloat s with
    | some q => .ok q
    | none => .error .valueError
  | .null => .error .typeError

/-- One order record (`class OrderEntry`), with the field types the
source annotates: seven descriptive fields and a monetary amount. -/
structure OrderEntry where
  order_number : String
  asin : String
  product_name : String
  order_type : String
  order_date : String
  shipped_date : String
  cancelled_date : Option String
  estimated_tax_value : ℚ
deriving DecidableEq, Repr

/-- Extraction of a string-annotated field: `data.get(key, "")`.  A
non-string JSON value would be stored untyped by the dynamically-typed
source in violation of its own annotations; such values are outside the
typed model and map to `""`. -/
def jGetStr (data : Row) (k : String) : String :=
  match List.lookup k data with
  | some (.str s) => s
  | some (.num _) => ""
  | some .null => ""
  | none => ""

/-- Extraction of the optional cancellation field: `data.get("Cancelled
Date")`.  An absent key and an explicit JSON null both yield Python
`None`; any other value marks the order cancelled (a numeric payload is
outside the typed model and maps to `some ""`). -/
def jGetCancelled (data : Row) : Option String :=
  match List.lookup "Cancelled Date" data with
  | some (.str s) => some s
  | some (.num _) => some ""
  | some .null => none
  | none => none

/-- Model of `OrderEntry.from_dict`: extract each field with its default
and coerce `"Estimated Tax Value"` through `float` (default `float(0)`
when the key is absent); the only failure is the numeric coercion. -/
def OrderEntry.from_dict (data : Row) : Except PyError OrderEntry :=
  match pyFloat ((List.lookup "Estimated Tax Value" data).getD (.num 0)) with
  | .error e => .error e
  | .ok tax =>
    .ok { order_number := jGetStr data "Order Number"
          asin := jGetStr data "ASIN"
          product_name := jGetStr data "Product Name"
          order_type := jGetStr data "Order Type"
          order_date := jGetStr data "Order Date"
          shipped_date := jGetStr data "Shipped Date"
          cancelled_date := jGetCancelled data
          estimated_tax_value := tax }

/-- ASCII case folding, the model of `str.lower`. -/
def pyLower (s : String) : String :=
  ⟨s.data.map Char.toLower⟩

/-- Containment of one character list in another, the model of Python's
substring test `needle in hay`. -/
def charsContains (needle : List Char) : List Char → Bool
  | [] => needle.isEmpty
  | c :: rest => needle.isPrefixOf (c :: rest) || charsContains needle rest

/-- Model of `OrderCollection.search_by_product_keyword`: keep the
orders whose lower-cased product name contains the lower-cased
keyword. -/
def search_by_product_keyword (orders : List OrderEntry) (keyword : String) : List OrderEntry :=
  let keyword_lower := pyLower keyword
  orders.filter (fun order => charsContains keyword_lower.data (pyLower order.product_name).data)

/-- Model of `OrderCollection.add_order`: append at the end. -/
def add_order (orders : List OrderEntry) (order : OrderEntry) : List OrderEntry :=
  orders ++ [order]

/-- Model of `OrderCollection.remove_order`: keep every order whose
number differs from the argument. -/
def remove_order (orders : List OrderEntry) (order_number : String) : List OrderEntry :=
  orders.filter (fun order => order.order_number != order_number)

/-- Model of `OrderCollection.get_order_by_number`: linear scan
returning the first match, `none` when there is none. -/
def get_order_by_number : List OrderEntry → String → Option OrderEntry
  | [], _ => none
  | order :: rest, n =>
    if order.order_number == n then some order else get_order_by_number rest n

/-- Sum of the estimated tax values of a list of orders (Python's
`sum(...)`, which folds `+` from `0` left to right). -/
def sumTax (orders : List OrderEntry) : ℚ :=
  orders.foldl (fun acc order => acc + order.estimated_tax_value) 0

/-- Model of `OrderCollection.total_costs`: sum over the optional
argument when one is passed (`orders is not None`), over the whole
collection otherwise. -/
def total_costs (self : List OrderEntry) (orders : Option (List OrderEntry)) : ℚ :=
  match orders with
  | none => sumTax self
  | some l => sumTax l

/-- Body of the comprehension of `filter_orders_by_date` once the bounds
are parsed: parse each record's `order_date` (raising `ValueError` at
the first record whose date does not parse) and keep the records inside
the inclusive range. -/
def filterLoop (start stop : Date) : List OrderEntry → Except PyError (List OrderEntry)
  | [] => .ok []
  | order :: rest =>
    match parseDate order.order_date with
    | none => .error .valueError
    | some d =>
      match filterLoop start stop rest with
      | .error e => .error e
      | .ok r => .ok (if Date.ble start d && Date.ble d stop then order :: r else r)

/-- Model of `OrderCollection.filter_orders_by_date`: parse both bounds
(raising `ValueError` on a malformed bound), then filter by the
inclusive range. -/
def filter_orders_by_date (orders : List OrderEntry) (start_date end_date : String) :
    Except PyError (List OrderEntry) :=
  match parseDate start_date with
  | none => .error .valueError
  | some start =>
    match parseDate end_date with
    | none => .error .valueError
    | some stop => filterLoop start stop orders

/-- Comprehension body of `cancelled_orders`: the range condition plus
`cancelled_date is not None`. -/
def cancelledLoop (start stop : Date) : List OrderEntry → Except PyError (List OrderEntry)
  | [] => .ok []
  | order :: rest =>
    match parseDate order.order_date with
    | none => .error .valueError
    | some d =>
      match cancelledLoop start stop rest with
      | .error e => .error e
      | .ok r =>
        .ok (if Date.ble start d && Date.ble d stop && order.cancelled_date.isSome then
               order :: r
             else r)

/-- Model of `OrderCollection.cancelled_orders`. -/
def cancelled_orders (orders : List OrderEntry) (start_date end_date : String) :
    Except PyError (List OrderEntry) :=
  match parseDate start_date with
  | none => .error .valueError
  | some start =>
    match parseDate end_date with
    | none => .error .valueError
    | some stop => cancelledLoop start stop orders

/-- Comprehension body of `noncancelled_orders`: the range condition
plus `cancelled_date is None`. -/
def noncancelledLoop (start stop : Date) : List OrderEntry → Except PyError (List OrderEntry)
  | [] => .ok []
  | order :: rest =>
    match parseDate order.order_date with
    | none => .error .valueError
    | some d =>
      match noncancelledLoop start stop rest with
      | .error e => .error e
      | .ok r =>
        .ok (if Date.ble start d && Date.ble d stop && order.cancelled_date.isNone then
               order :: r
             else r)

/-- Model of `OrderCollection.noncancelled_orders`. -/
def noncancelled_orders (orders : List OrderEntry) (start_date end_date : String) :
    Except PyError (List OrderEntry) :=
  match parseDate start_date with
  | none => .error .valueError
  | some start =>
    match parseDate end_date with
    | none => .error .valueError
    | some stop => noncancelledLoop start stop orders

/-- Outcome reported (printed, never raised) by
`load_orders_from_file`. -/
inductive LoadOutcome where
  | success
  | fileNotFound
  | decodeError
  | entryError (e : PyError)
deriving DecidableEq, Repr

/-- What the file system and JSON decoder hand to
`load_orders_from_file`: a missing file, undecodable content, or a
decoded list of objects. -/
inductive LoadSource where
  | fileNotFound
  | badJSON
  | entries (es : List Row)
deriving DecidableEq, Repr

/-- The loading loop: construct a record per row and append it,
stopping at the first row whose construction raises (the exception
escapes the `for` loop into the `except` clause, keeping the records
already added). -/
def loadLoop (orders : List OrderEntry) : List Row → List OrderEntry × LoadOutcome
  | [] => (orders, .success)
  | row :: rest =>
    match OrderEntry.from_dict row with
    | .ok r => loadLoop (add_order orders r) rest
    | .error e => (orders, .entryError e)

/-- Model of `OrderCollection.load_orders_from_file`: every failure is
caught and turned into a reported outcome, never re-raised; the
collection keeps whatever had been added before the failure. -/
def load_orders_from_file (orders : List OrderEntry) (src : LoadSource) :
    List OrderEntry × LoadOutcome :=
  match src with
  | .fileNotFound => (orders, .fileNotFound)
  | .badJSON => (orders, .decodeError)
  | .entries es => loadLoop orders es

/-! ### Helper lemmas and concrete records -/

/-- A sample non-cancelled order used to instantiate the theorems. -/
def entrySample : OrderEntry :=
  ⟨"100-1", "A1", "echo dot", "Order", "01/15/2024", "01/16/2024", none, 5⟩

/-- A sample cancelled order used to instantiate the theorems. -/
def entryB : OrderEntry :=
  ⟨"100-2", "A2", "fire stick", "Order", "01/20/2024", "01/21/2024", some "01/21/2024", mkRat 5 2⟩

lemma get_eq_head_filter (c : List OrderEntry) (n : String) :
    get_order_by_number c n = (c.filter (fun o => o.order_number == n)).head? := by
  induction c with
  | nil => rfl
  | cons o rest ih =>
    by_cases h : o.order_number = n
    · simp [get_order_by_number, List.filter_cons, h]
    · simp [get_order_by_number, List.filter_cons, h, ih]

lemma get_none_of_no_match (c : List OrderEntry) (n : String)
    (h : ∀ x ∈ c, x.order_number ≠ n) : get_order_by_number c n = none := by
  rw [get_eq_head_filter]
  have hfil : c.filter (fun o => o.order_number == n) = [] := by
    rw [List.filter_eq_nil_iff]
    intro a ha
    simp [h a ha]
  rw [hfil]
  rfl

/-! ### Claim theorems -/

/-- C10: passing an explicitly empty list to `total_costs` yields `0`
for every collection; the whole-collection fall-back fires only when
the argument is omitted (`None`), as the sample non-empty collection
with total `5` shows. -/
theorem total_costs_empty_arg_spec :
    (∀ c : List OrderEntry, total_costs c (some []) = 0) ∧
    total_costs [entrySample] (some []) = 0 ∧
    total_costs [entrySample] none = 5 := by
  refine ⟨fun c => rfl, rfl, ?_⟩
  show sumTax [entrySample] = 5
  simp [sumTax, entrySample]

/-- C5: `remove_order` deletes exactly the records whose number equals
the argument (all of them), keeps the rest in their original relative
order (the result is a sublist), never fails, and a subsequent lookup
of the removed number finds nothing. -/
theorem remove_order_spec (c : List OrderEntry) (x : String) :
    (∀ o : OrderEntry, o ∈ remove_order c x ↔ o ∈ c ∧ o.order_number ≠ x) ∧
    (remove_order c x).Sublist c ∧
    get_order_by_number (remove_order c x) x = none := by
  refine ⟨?_, ?_, ?_⟩
  · intro o
    simp [remove_order, List.mem_filter, bne_iff_ne]
  · exact List.filter_sublist c
  · apply get_none_of_no_match
    intro o ho
    have : o ∈ c ∧ o.order_number ≠ x := by
      simpa [remove_order, List.mem_filter, bne_iff_ne] using ho
    exact this.2

/-- C6: `get_order_by_number` returns the first record (in insertion
order) whose number matches, `none` when no record matches, and after
`add_order` of a record whose number is fresh for the collection the
lookup of that number returns exactly the added record. -/
theorem get_order_by_number_spec (c : List OrderEntry) (n : String) (r : OrderEntry) :
    get_order_by_number c n = (c.filter (fun o => o.order_number == n)).head? ∧
    ((∀ x ∈ c, x.order_number ≠ n) → get_order_by_number c n = none) ∧
    ((∀ x ∈ c, x.order_number ≠ r.order_number) →
      get_order_by_number (add_order c r) r.order_number = some r) := by
  refine ⟨get_eq_head_filter c n, get_none_of_no_match c n, ?_⟩
  intro h
  induction c with
  | nil => simp [add_order, get_order_by_number]
  | cons o rest ih =>
    have ho : o.order_number ≠ r.order_number := h o (by simp)
    have hrest : ∀ x ∈ rest, x.order_number ≠ r.order_number :=
      fun x hx => h x (List.mem_cons_of_mem _ hx)
    simpa [add_order, get_order_by_number, ho] using ih hrest

/-- C6 witness: on a concrete collection the lookup of an unused number
is `none`, and the lookup of a freshly added record's number returns
that record. -/
theorem get_order_by_number_witness :
    get_order_by_number [entrySample] "zzz" = none ∧
    get_order_by_number (add_order [entrySample] entryB) "100-2" = some entryB := by
  constructor
  · exact (get_order_by_number_spec [entrySample] "zzz" entryB).2.1 (by decide)
  · exact (get_order_by_number_spec [entrySample] "100-2" entryB).2.2 (by decide)

lemma isPrefixOf_iff (as bs : List Char) :
    as.isPrefixOf bs = true ↔ ∃ t, bs = as ++ t := by
  induction as generalizing bs with
  | nil => simp [List.isPrefixOf]
  | cons a as ih =>
    cases bs with
    | nil => simp [List.isPrefixOf]
    | cons b bs =>
      simp only [List.isPrefixOf, Bool.and_eq_true, beq_iff_eq, ih, List.cons_append]
      constructor
      · rintro ⟨rfl, t, rfl⟩
        exact ⟨t, rfl⟩
      · rintro ⟨t, ht⟩
        injection ht with h1 h2
        exact ⟨h1.symm, t, h2⟩

lemma charsContains_nil (h : List Char) : charsContains [] h = true := by
  cases h <;> simp [charsContains, List.isPrefixOf]

lemma charsContains_iff (n h : List Char) :
    charsContains n h = true ↔ ∃ pre post, h = pre ++ (n ++ post) := by
  induction h with
  | nil =>
    simp only [charsContains, List.isEmpty_iff]
    constructor
    · rintro rfl
      exact ⟨[], [], rfl⟩
    · rintro ⟨pre, post, hpp⟩
      rcases List.append_eq_nil.mp hpp.symm with ⟨rfl, h2⟩
      rcases List.append_eq_nil.mp h2 with ⟨rfl, rfl⟩
      rfl
  | cons c rest ih =>
    simp only [charsContains, Bool.or_eq_true, ih, isPrefixOf_iff]
    constructor
    · rintro (⟨t, ht⟩ | ⟨pre, post, hpp⟩)
      · exact ⟨[], t, by simp [ht]⟩
      · exact ⟨c :: pre, post, by simp [hpp]⟩
    · rintro ⟨pre, post, hpp⟩
      cases pre with
      | nil => exact Or.inl ⟨post, by simpa using hpp⟩
      | cons p pre' =>
        refine Or.inr ?_
        injection hpp with h1 h2
        exact ⟨pre', post, h2⟩

/-- C7: `search_by_product_keyword` returns exactly the records whose
lower-cased product name contains the lower-cased keyword as a
substring, as an ordered subsequence of the collection; the search only
depends on the case-folded keyword, and the empty keyword returns the
whole collection. -/
theorem search_by_product_keyword_spec (c : List OrderEntry) (kw k1 k2 : String) :
    (∀ o : OrderEntry, o ∈ search_by_product_keyword c kw ↔
       o ∈ c ∧ ∃ pre post,
         (pyLower o.product_name).data = pre ++ ((pyLower kw).data ++ post)) ∧
    (search_by_product_keyword c kw).Sublist c ∧
    (pyLower k1 = pyLower k2 →
      search_by_product_keyword c k1 = search_by_product_keyword c k2) ∧
    search_by_product_keyword c "" = c := by
  refine ⟨?_, ?_, ?_, ?_⟩
  · intro o
    simp [search_by_product_keyword, List.mem_filter, charsContains_iff]
  · exact List.filter_sublist c
  · intro h
    simp [search_by_product_keyword, h]
  · rw [search_by_product_keyword, List.filter_eq_self]
    intro o _
    have hkw : (pyLower "").data = [] := rfl
    rw [hkw]
    exact charsContains_nil _

/-- C7 witness: searching is case-insensitive on a concrete collection
(`"Echo"` and `"eCHO"` give the same result) and `"Echo"` matches the
record whose product name is `"echo dot"`. -/
theorem search_by_product_keyword_witness :
    search_by_product_keyword [entrySample, entryB] "Echo" =
      search_by_product_keyword [entrySample, entryB] "eCHO" ∧
    entrySample ∈ search_by_product_keyword [entrySample, entryB] "Echo" := by
  constructor
  · exact (search_by_product_keyword_spec [entrySample, entryB] "" "Echo" "eCHO").2.2.1
      (by decide)
  · exact ((search_by_product_keyword_spec [entrySample, entryB] "Echo" "" "").1
      entrySample).mpr ⟨by simp, [], " dot".data, by decide⟩

/-- Records built from the rows preceding the first row whose
construction fails (all of them when every row constructs). -/
def okRecords : List Row → List OrderEntry
  | [] => []
  | row :: rest =>
    match OrderEntry.from_dict row with
    | .ok r => r :: okRecords rest
    | .error _ => []

/-- The outcome `load_orders_from_file` reports for a decoded list of
rows: success, or the error of the first failing row. -/
def loadReport : List Row → LoadOutcome
  | [] => .success
  | row :: rest =>
    match OrderEntry.from_dict row with
    | .ok _ => loadReport rest
    | .error e => .entryError e

lemma loadLoop_eq (es : List Row) :
    ∀ c : List OrderEntry, loadLoop c es = (c ++ okRecords es, loadReport es) := by
  induction es with
  | nil =>
    intro c
    simp [loadLoop, okRecords, loadReport]
  | cons row rest ih =>
    intro c
    cases hfd : OrderEntry.from_dict row with
    | ok r => simp [loadLoop, okRecords, loadReport, hfd, ih, add_order]
    | error e => simp [loadLoop, okRecords, loadReport, hfd]

/-- C4: `load_orders_from_file` is a total function (every failure is
reported, never raised).  A missing file or undecodable content leaves
the collection unchanged, and loading decoded rows always leaves the
collection equal to the prior records followed, in input order, by the
records built from the rows preceding the first failing row. -/
theorem load_orders_from_file_spec (c : List OrderEntry) :
    load_orders_from_file c .fileNotFound = (c, .fileNotFound) ∧
    load_orders_from_file c .badJSON = (c, .decodeError) ∧
    (∀ es : List Row,
      load_orders_from_file c (.entries es) = (c ++ okRecords es, loadReport es)) :=
  ⟨rfl, rfl, fun es => loadLoop_eq es c⟩

/-- The range predicate of the date queries: the record's parsed
`order_date` lies in the inclusive interval (false when it does not
parse, a case the queries turn into an error instead). -/
def inRange (start stop : Date) (o : OrderEntry) : Bool :=
  match parseDate o.order_date with
  | some d => Date.ble start d && Date.ble d stop
  | none => false

/-- The `cancelled_orders` predicate: in range and cancelled. -/
def inRangeCancelled (start stop : Date) (o : OrderEntry) : Bool :=
  inRange start stop o && o.cancelled_date.isSome

/-- The `noncancelled_orders` predicate: in range and not cancelled. -/
def inRangeNoncancelled (start stop : Date) (o : OrderEntry) : Bool :=
  inRange start stop o && o.cancelled_date.isNone

lemma filterLoop_ok (start stop : Date) (c : List OrderEntry)
    (h : ∀ o ∈ c, (parseDate o.order_date).isSome = true) :
    filterLoop start stop c = .ok (c.filter (inRange start stop)) := by
  induction c with
  | nil => rfl
  | cons o rest ih =>
    rcases ho : parseDate o.order_date with _ | d
    · exact absurd (h o (by simp)) (by simp [ho])
    · have ih' := ih (fun x hx => h x (List.mem_cons_of_mem _ hx))
      simp [filterLoop, ho, ih', List.filter_cons, inRange]

lemma filterLoop_err (start stop : Date) (c : List OrderEntry)
    (h : ¬ ∀ o ∈ c, (parseDate o.order_date).isSome = true) :
    filterLoop start stop c = .error .valueError := by
  induction c with
  | nil => exact absurd (by simp) h
  | cons o rest ih =>
    rcases ho : parseDate o.order_date with _ | d
    · simp [filterLoop, ho]
    · have hrest : ¬ ∀ x ∈ rest, (parseDate x.order_date).isSome = true := by
        intro hall
        refine h ?_
        intro x hx
        rcases List.mem_cons.mp hx with rfl | hx'
        · simp [ho]
        · exact hall x hx'
      simp [filterLoop, ho, ih hrest]

lemma cancelledLoop_ok (start stop : Date) (c : List OrderEntry)
    (h : ∀ o ∈ c, (parseDate o.order_date).isSome = true) :
    cancelledLoop start stop c = .ok (c.filter (inRangeCancelled start stop)) := by
  induction c with
  | nil => rfl
  | cons o rest ih =>
    rcases ho : parseDate o.order_date with _ | d
    · exact absurd (h o (by simp)) (by simp [ho])
    · have ih' := ih (fun x hx => h x (List.mem_cons_of_mem _ hx))
      simp [cancelledLoop, ho, ih', List.filter_cons, inRangeCancelled, inRange,
        Bool.and_assoc]

lemma cancelledLoop_err (start stop : Date) (c : List OrderEntry)
    (h : ¬ ∀ o ∈ c, (parseDate o.order_date).isSome = true) :
    cancelledLoop start stop c = .error .valueError := by
  induction c with
  | nil => exact absurd (by simp) h
  | cons o rest ih =>
    rcases ho : parseDate o.order_date with _ | d
    · simp [cancelledLoop, ho]
    · have hrest : ¬ ∀ x ∈ rest, (parseDate x.order_date).isSome = true := by
        intro hall
        refine h ?_
        intro x hx
        rcases List.mem_cons.mp hx with rfl | hx'
        · simp [ho]
        · exact hall x hx'
      simp [cancelledLoop, ho, ih hrest]

lemma noncancelledLoop_ok (start stop : Date) (c : List OrderEntry)
    (h : ∀ o ∈ c, (parseDate o.order_date).isSome = true) :
    noncancelledLoop start stop c = .ok (c.filter (inRangeNoncancelled start stop)) := by
  induction c with
  | nil => rfl
  | cons o rest ih =>
    rcases ho : parseDate o.order_date with _ | d
    · exact absurd (h o (by simp)) (by simp [ho])
    · have ih' := ih (fun x hx => h x (List.mem_cons_of_mem _ hx))
      simp [noncancelledLoop, ho, ih', List.filter_cons, inRangeNoncancelled, inRange,
        Bool.and_assoc]

lemma noncancelledLoop_err (start stop : Date) (c : List OrderEntry)
    (h : ¬ ∀ o ∈ c, (parseDate o.order_date).isSome = true) :
    noncancelledLoop start stop c = .error .valueError := by
  induction c with
  | nil => exact absurd (by simp) h
  | cons o rest ih =>
    rcases ho : parseDate o.order_date with _ | d
    · simp [noncancelledLoop, ho]
    · have hrest : ¬ ∀ x ∈ rest, (parseDate x.order_date).isSome = true := by
        intro hall
        refine h ?_
        intro x hx
        rcases List.mem_cons.mp hx with rfl | hx'
        · simp [ho]
        · exact hall x hx'
      simp [noncancelledLoop, ho, ih hrest]

/-- C2: when the bounds and every stored `order_date` parse as
`MM/DD/YYYY`, `filter_orders_by_date` returns exactly the records whose
parsed date lies in the inclusive range, in the collection's original
order; and it raises the date-format error (`ValueError` from
`strptime`) exactly when a bound or any stored date fails to parse — a
malformed stored date aborts the whole query. -/
theorem filter_orders_by_date_spec (c : List OrderEntry) (sd ed : String) :
    (∀ S E : Date, parseDate sd = some S → parseDate ed = some E →
      (∀ o ∈ c, (parseDate o.order_date).isSome = true) →
      filter_orders_by_date c sd ed = .ok (c.filter (inRange S E))) ∧
    (filter_orders_by_date c sd ed = .error .valueError ↔
      (parseDate sd = none ∨ parseDate ed = none ∨
        ∃ o ∈ c, parseDate o.order_date = none)) := by
  constructor
  · intro S E hS hE hall
    simp [filter_orders_by_date, hS, hE, filterLoop_ok S E c hall]
  · constructor
    · intro herr
      rcases hS : parseDate sd with _ | S
      · exact Or.inl rfl
      rcases hE : parseDate ed with _ | E
      · exact Or.inr (Or.inl rfl)
      refine Or.inr (Or.inr ?_)
      by_contra hno
      push_neg at hno
      have hall : ∀ o ∈ c, (parseDate o.order_date).isSome = true := by
        intro o ho
        rcases hoo : parseDate o.order_date with _ | d
        · exact absurd hoo (hno o ho)
        · rfl
      simp [filter_orders_by_date, hS, hE, filterLoop_ok S E c hall] at herr
    · intro hsrc
      rcases hsrc with hS | hE | ⟨o, ho, hoo⟩
      · simp [filter_orders_by_date, hS]
      · rcases hS : parseDate sd with _ | S
        · simp [filter_orders_by_date, hS]
        · simp [filter_orders_by_date, hS, hE]
      · rcases hS : parseDate sd with _ | S
        · simp [filter_orders_by_date, hS]
        rcases hE : parseDate ed with _ | E
        · simp [filter_orders_by_date, hS, hE]
        have hno : ¬ ∀ x ∈ c, (parseDate x.order_date).isSome = true := by
          intro hall
          have hx := hall o ho
          rw [hoo] at hx
          exact absurd hx (by simp)
        simp [filter_orders_by_date, hS, hE, filterLoop_err S E c hno]

/-- C2 witness: on a concrete two-record collection with parseable
dates and bounds, the query succeeds and returns the filtered
records. -/
theorem filter_orders_by_date_witness :
    filter_orders_by_date [entrySample, entryB] "01/01/2024" "01/17/2024" =
      .ok (List.filter (inRange ⟨2024, 1, 1⟩ ⟨2024, 1, 17⟩) [entrySample, entryB]) :=
  (filter_orders_by_date_spec [entrySample, entryB] "01/01/2024" "01/17/2024").1
    ⟨2024, 1, 1⟩ ⟨2024, 1, 17⟩ (by decide) (by decide) (by decide)

/-- C1: for bounds and stored dates that all parse as `MM/DD/YYYY`, the
three range queries succeed, `cancelled_orders` and
`noncancelled_orders` are disjoint, and together they contain exactly
the members of `filter_orders_by_date` for the same bounds. -/
theorem cancelled_partition_spec (c : List OrderEntry) (sd ed : String)
    (hS : (parseDate sd).isSome = true) (hE : (parseDate ed).isSome = true)
    (hall : ∀ o ∈ c, (parseDate o.order_date).isSome = true) :
    ∃ F Can Non : List OrderEntry,
      filter_orders_by_date c sd ed = .ok F ∧
      cancelled_orders c sd ed = .ok Can ∧
      noncancelled_orders c sd ed = .ok Non ∧
      (∀ o : OrderEntry, ¬(o ∈ Can ∧ o ∈ Non)) ∧
      (∀ o : OrderEntry, o ∈ F ↔ o ∈ Can ∨ o ∈ Non) := by
  rcases Option.isSome_iff_exists.mp hS with ⟨S, hSs⟩
  rcases Option.isSome_iff_exists.mp hE with ⟨E, hEs⟩
  refine ⟨c.filter (inRange S E), c.filter (inRangeCancelled S E),
    c.filter (inRangeNoncancelled S E), ?_, ?_, ?_, ?_, ?_⟩
  · simp [filter_orders_by_date, hSs, hEs, filterLoop_ok S E c hall]
  · simp [cancelled_orders, hSs, hEs, cancelledLoop_ok S E c hall]
  · simp [noncancelled_orders, hSs, hEs, noncancelledLoop_ok S E c hall]
  · rintro o ⟨hc, hn⟩
    have h1 := (List.mem_filter.mp hc).2
    have h2 := (List.mem_filter.mp hn).2
    rcases Bool.and_eq_true_iff.mp h1 with ⟨_, hsome⟩
    rcases Bool.and_eq_true_iff.mp h2 with ⟨_, hnone⟩
    rw [Option.isNone_iff_eq_none] at hnone
    rw [hnone] at hsome
    exact absurd hsome (by simp)
  · intro o
    simp only [List.mem_filter, inRangeCancelled, inRangeNoncancelled, Bool.and_eq_true]
    constructor
    · rintro ⟨hoc, hr⟩
      cases hcd : o.cancelled_date with
      | none => exact Or.inr ⟨hoc, hr, by simp [hcd]⟩
      | some s => exact Or.inl ⟨hoc, hr, by simp [hcd]⟩
    · rintro (⟨hoc, hr, _⟩ | ⟨hoc, hr, _⟩) <;> exact ⟨hoc, hr⟩

/-- C1 witness: on a concrete collection with one cancelled and one
non-cancelled record the partition statement holds with all hypotheses
discharged by evaluation. -/
theorem cancelled_partition_witness :
    ∃ F Can Non : List OrderEntry,
      filter_orders_by_date [entrySample, entryB] "01/01/2024" "01/31/2024" = .ok F ∧
      cancelled_orders [entrySample, entryB] "01/01/2024" "01/31/2024" = .ok Can ∧
      noncancelled_orders [entrySample, entryB] "01/01/2024" "01/31/2024" = .ok Non ∧
      (∀ o : OrderEntry, ¬(o ∈ Can ∧ o ∈ Non)) ∧
      (∀ o : OrderEntry, o ∈ F ↔ o ∈ Can ∨ o ∈ Non) :=
  cancelled_partition_spec [entrySample, entryB] "01/01/2024" "01/31/2024"
    (by decide) (by decide) (by decide)

/-- C3 counterexample: a mapping whose `"Estimated Tax Value"` entry is
the empty string.  The entry is empty (so the claim's "non-numeric and
non-empty" failure condition does not hold of it), yet record
construction fails with the `ValueError` kind, because `float("")`
raises. -/
theorem from_dict_empty_tax_counterexample :
    List.lookup "Estimated Tax Value" [("Estimated Tax Value", JValue.str "")] =
      some (JValue.str "") ∧
    OrderEntry.from_dict [("Estimated Tax Value", JValue.str "")] =
      .error .valueError := by
  constructor
  · rfl
  · decide

/-- C3 (amended): record construction coerces the `"Estimated Tax
Value"` entry through `float`, uses `0.0` when the key is missing, and
fails exactly when the entry is present and its `float` coercion fails
— which happens for every non-numeric string including the empty
string. -/
theorem from_dict_tax_spec (data : Row) :
    ((OrderEntry.from_dict data).isOk = false ↔
      ∃ v, List.lookup "Estimated Tax Value" data = some v ∧ (pyFloat v).isOk = false) ∧
    (List.lookup "Estimated Tax Value" data = none →
      ∃ r, OrderEntry.from_dict data = .ok r ∧ r.estimated_tax_value = 0) ∧
    (∀ v q, List.lookup "Estimated Tax Value" data = some v → pyFloat v = .ok q →
      ∃ r, OrderEntry.from_dict data = .ok r ∧ r.estimated_tax_value = q) := by
  refine ⟨?_, ?_, ?_⟩
  · rcases hl : List.lookup "Estimated Tax Value" data with _ | v
    · simp [OrderEntry.from_dict, hl, pyFloat, Except.isOk, Except.toBool]
    · rcases hpf : pyFloat v with e | q
      · simp only [OrderEntry.from_dict, hl, Option.getD_some, hpf]
        constructor
        · intro _
          exact ⟨v, rfl, by simp [hpf, Except.isOk, Except.toBool]⟩
        · intro _
          simp [Except.isOk, Except.toBool]
      · simp [OrderEntry.from_dict, hl, hpf, Except.isOk, Except.toBool]
  · intro hl
    refine ⟨⟨jGetStr data "Order Number", jGetStr data "ASIN", jGetStr data "Product Name",
      jGetStr data "Order Type", jGetStr data "Order Date", jGetStr data "Shipped Date",
      jGetCancelled data, 0⟩, ?_, rfl⟩
    simp [OrderEntry.from_dict, hl, pyFloat]
  · intro v q hl hpf
    refine ⟨⟨jGetStr data "Order Number", jGetStr data "ASIN", jGetStr data "Product Name",
      jGetStr data "Order Type", jGetStr data "Order Date", jGetStr data "Shipped Date",
      jGetCancelled data, q⟩, ?_, rfl⟩
    simp [OrderEntry.from_dict, hl, hpf]

/-- C3 witness: a numeric-like string `"2.50"` coerces to the rational
`5/2`, and a mapping without the key constructs with tax `0`. -/
theorem from_dict_tax_witness :
    (∃ r, OrderEntry.from_dict [("Estimated Tax Value", JValue.str "2.50")] = .ok r ∧
      r.estimated_tax_value = mkRat 5 2) ∧
    (∃ r, OrderEntry.from_dict [("Product Name", JValue.str "Echo Dot")] = .ok r ∧
      r.estimated_tax_value = 0) := by
  constructor
  · exact (from_dict_tax_spec [("Estimated Tax Value", JValue.str "2.50")]).2.2
      (JValue.str "2.50") (mkRat 5 2) (by decide) (by decide)
  · exact (from_dict_tax_spec [("Product Name", JValue.str "Echo Dot")]).2.1 (by decide)

/-- C9: every string-annotated field defaults to `""` when its key is
absent, `cancelled_date` defaults to `none` when its key is absent
while a present empty-string value yields `some ""` (absent and empty
cancellations are distinguished), and construction can only fail
through the tax coercion — a missing `"Order Number"` never makes it
raise. -/
theorem from_dict_defaults_spec (data : Row) :
    (∀ r : OrderEntry, OrderEntry.from_dict data = .ok r →
      (List.lookup "Order Number" data = none → r.order_number = "") ∧
      (List.lookup "ASIN" data = none → r.asin = "") ∧
      (List.lookup "Product Name" data = none → r.product_name = "") ∧
      (List.lookup "Order Type" data = none → r.order_type = "") ∧
      (List.lookup "Order Date" data = none → r.order_date = "") ∧
      (List.lookup "Shipped Date" data = none → r.shipped_date = "") ∧
      (List.lookup "Cancelled Date" data = none → r.cancelled_date = none) ∧
      (∀ s, List.lookup "Cancelled Date" data = some (JValue.str s) →
        r.cancelled_date = some s)) ∧
    ((OrderEntry.from_dict data).isOk = false →
      ∃ v, List.lookup "Estimated Tax Value" data = some v ∧ (pyFloat v).isOk = false) := by
  constructor
  · intro r hr
    rcases hpf : pyFloat ((List.lookup "Estimated Tax Value" data).getD (.num 0)) with e | q
    · simp [OrderEntry.from_dict, hpf] at hr
    · simp only [OrderEntry.from_dict, hpf, Except.ok.injEq] at hr
      subst hr
      refine ⟨?_, ?_, ?_, ?_, ?_, ?_, ?_, ?_⟩
      · intro h
        simp [jGetStr, h]
      · intro h
        simp [jGetStr, h]
      · intro h
        simp [jGetStr, h]
      · intro h
        simp [jGetStr, h]
      · intro h
        simp [jGetStr, h]
      · intro h
        simp [jGetStr, h]
      · intro h
        simp [jGetCancelled, h]
      · intro s h
        simp [jGetCancelled, h]
  · intro hfail
    rcases hl : List.lookup "Estimated Tax Value" data with _ | v
    · have : (OrderEntry.from_dict data).isOk = true := by
        simp [OrderEntry.from_dict, hl, pyFloat, Except.isOk, Except.toBool]
      rw [this] at hfail
      exact absurd hfail (by simp)
    · rcases hpf : pyFloat v with e | q
      · exact ⟨v, rfl, by simp [hpf, Except.isOk, Except.toBool]⟩
      · have : (OrderEntry.from_dict data).isOk = true := by
          simp [OrderEntry.from_dict, hl, hpf, Except.isOk, Except.toBool]
        rw [this] at hfail
        exact absurd hfail (by simp)

/-- C9 witness: a mapping carrying only an empty-string cancellation
builds a record whose string fields are all `""` and whose
`cancelled_date` is `some ""`, distinct from the absent case. -/
theorem from_dict_defaults_witness :
    ∃ r : OrderEntry, OrderEntry.from_dict [("Cancelled Date", JValue.str "")] = .ok r ∧
      r.order_number = "" ∧ r.cancelled_date = some "" := by
  have hfd : OrderEntry.from_dict [("Cancelled Date", JValue.str "")] =
      .ok ⟨"", "", "", "", "", "", some "", 0⟩ := by decide
  have h := (from_dict_defaults_spec [("Cancelled Date", JValue.str "")]).1 _ hfd
  exact ⟨_, hfd, h.1 (by decide), h.2.2.2.2.2.2.2 "" (by decide)⟩
